import Mathlib

/-!
# Verification of the ws_data_uploader collection-and-durability pipeline

Shallow embedding of the core of `ws_data_uploader`:

* `weather_station/collector.py` — `WeatherCollector._make_request`,
  `WeatherCollector.collect_data`, `WeatherCollector.sync_pending_data`;
* `weather_station/local_storage.py` — `LocalStorageManager.save_data`,
  `get_pending_data`, `mark_as_synced`, `_mark_corrupted_record`;
* `weather_station/database.py` — `DatabaseManager.is_connected`,
  `DatabaseManager.save_data`.

External collaborators (HTTP, sqlite3, psycopg2) are modelled by explicit
oracles: a state records, for each kind of fallible external operation,
the (pre-decided) outcome of its *n*-th invocation, so that arbitrary
partial-failure schedules can be quantified over.  Python's `json.dumps` /
`json.loads` on the flat record dictionary are embedded as an executable
character-level serializer and parser (`dumps` / `loads` below), matching
`json.dumps`'s default output format (`", "` and `": "` separators) on
records whose strings contain no character that `json.dumps` would escape.
Numeric payload values are modelled as integers; Python floats are outside
the embedding.
-/

/-! ## Decimal numerals

`json.dumps` prints an `int` with Python's `repr`: most-significant digit
first, `-` sign for negatives.  `printNatAux` is fuel-structured so that it
evaluates by `rfl`/`decide` in the kernel. -/

/-- Print the decimal digits of `n` (most significant first) in front of
`suffix`.  `fuel` bounds the recursion; `fuel = n + 1` always suffices. -/
def printNatAux : Nat → Nat → List Char → List Char
  | 0, _, suffix => suffix
  | fuel + 1, n, suffix =>
    if n < 10 then Nat.digitChar n :: suffix
    else printNatAux fuel (n / 10) (Nat.digitChar (n % 10) :: suffix)

/-- Python `repr` of a natural number, as a character list. -/
def printNat (n : Nat) : List Char := printNatAux (n + 1) n []

/-- Python `repr` of an `int`, as a character list. -/
def printInt : Int → List Char
  | .ofNat n => printNat n
  | .negSucc n => '-' :: printNat (n + 1)

/-- Greedily consume decimal digits, folding them onto `acc`; stops at the
first non-digit character. -/
def parseNatAux (acc : Nat) : List Char → Nat × List Char
  | [] => (acc, [])
  | c :: cs => if c.isDigit then parseNatAux (acc * 10 + (c.toNat - 48)) cs else (acc, c :: cs)

/-- Does the list start with a decimal digit? -/
def headDigit : List Char → Bool
  | [] => false
  | c :: _ => c.isDigit

theorem digitChar_isDigit (d : Nat) (h : d < 10) : (Nat.digitChar d).isDigit = true := by
  interval_cases d <;> rfl

theorem digitChar_toNat (d : Nat) (h : d < 10) : (Nat.digitChar d).toNat - 48 = d := by
  interval_cases d <;> rfl

theorem printNatAux_append (fuel : Nat) :
    ∀ n suffix, printNatAux fuel n suffix = printNatAux fuel n [] ++ suffix := by
  induction fuel with
  | zero => intro n suffix; rfl
  | succ fuel ih =>
    intro n suffix
    by_cases h : n < 10
    · simp [printNatAux, h]
    · simp only [printNatAux, if_neg h]
      rw [ih (n / 10) (Nat.digitChar (n % 10) :: suffix),
        ih (n / 10) (Nat.digitChar (n % 10) :: [])]
      simp

theorem printNatAux_digits (fuel : Nat) :
    ∀ n c, c ∈ printNatAux fuel n [] → c.isDigit = true := by
  induction fuel with
  | zero => intro n c hc; simp [printNatAux] at hc
  | succ fuel ih =>
    intro n c hc
    by_cases h : n < 10
    · simp [printNatAux, h] at hc
      subst hc; exact digitChar_isDigit n h
    · simp only [printNatAux, if_neg h] at hc
      rw [printNatAux_append] at hc
      rcases List.mem_append.mp hc with h1 | h1
      · exact ih _ _ h1
      · simp at h1
        subst h1
        exact digitChar_isDigit _ (Nat.mod_lt _ (by omega))

theorem printNatAux_ne_nil (fuel n : Nat) : printNatAux (fuel + 1) n [] ≠ [] := by
  by_cases h : n < 10
  · simp [printNatAux, h]
  · simp only [printNatAux, if_neg h]
    rw [printNatAux_append]
    simp

theorem printNatAux_foldl (fuel : Nat) :
    ∀ n acc, n < 10 ^ fuel →
      List.foldl (fun a c => a * 10 + (c.toNat - 48)) acc (printNatAux fuel n []) =
        acc * 10 ^ (printNatAux fuel n []).length + n := by
  induction fuel with
  | zero =>
    intro n acc h
    interval_cases n
    simp [printNatAux]
  | succ fuel ih =>
    intro n acc h
    by_cases hn : n < 10
    · simp [printNatAux, hn, digitChar_toNat n hn]
    · simp only [printNatAux, if_neg hn]
      rw [printNatAux_append]
      have hdiv : n / 10 < 10 ^ fuel := by
        rw [Nat.div_lt_iff_lt_mul (by omega)]
        calc n < 10 ^ (fuel + 1) := h
        _ = 10 ^ fuel * 10 := by rw [pow_succ]
      rw [List.foldl_append, ih (n / 10) acc hdiv]
      simp only [List.foldl_cons, List.foldl_nil, List.length_append, List.length_cons,
        List.length_nil]
      rw [digitChar_toNat (n % 10) (Nat.mod_lt _ (by omega))]
      have hmod : n % 10 + 10 * (n / 10) = n := Nat.mod_add_div n 10
      rw [pow_succ]
      ring_nf
      omega

theorem parseNatAux_consume (ds : List Char) :
    ∀ acc rest, (∀ c ∈ ds, c.isDigit = true) → headDigit rest = false →
      parseNatAux acc (ds ++ rest) = (List.foldl (fun a c => a * 10 + (c.toNat - 48)) acc ds, rest) := by
  induction ds with
  | nil =>
    intro acc rest _ hrest
    cases rest with
    | nil => rfl
    | cons c cs =>
      simp only [headDigit] at hrest
      simp [parseNatAux, hrest]
  | cons d ds ih =>
    intro acc rest hds hrest
    have hd : d.isDigit = true := hds d (by simp)
    simp only [List.cons_append, parseNatAux, hd, if_true, List.foldl_cons]
    exact ih _ rest (fun c hc => hds c (by simp [hc])) hrest

theorem parseNat_printNat (n : Nat) (rest : List Char) (h : headDigit rest = false) :
    parseNatAux 0 (printNat n ++ rest) = (n, rest) := by
  have hn : n < 10 ^ (n + 1) := by
    calc n < 10 ^ n := Nat.lt_pow_self (by omega) n
    _ ≤ 10 ^ (n + 1) := Nat.pow_le_pow_right (by omega) (by omega)
  rw [printNat, parseNatAux_consume _ _ _ (fun c hc => printNatAux_digits _ _ _ hc) h,
    printNatAux_foldl (n + 1) n 0 hn]
  simp

theorem printNat_cons (n : Nat) : ∃ d ds, printNat n = d :: ds ∧ d.isDigit = true := by
  rcases hne : printNat n with _ | ⟨d, ds⟩
  · exact absurd hne (printNatAux_ne_nil n n)
  · exact ⟨d, ds, rfl, printNatAux_digits _ _ _ (by rw [printNat] at hne; rw [hne]; simp)⟩

/-! ## JSON scalar values

The values stored in the flat record dictionary are strings (`date`,
`time`) and `int`-or-`None` readings.  `json.dumps` renders `None` as
`null` and an `int` with `repr`. -/

/-- Rendering of an optional integer value by `json.dumps`. -/
def dumpOptInt : Option Int → List Char
  | none => 'n' :: 'u' :: 'l' :: 'l' :: []
  | some n => printInt n

/-- Parse `null` or a (possibly negative) decimal integer, returning the
unconsumed remainder.  Mirrors what `json.loads` accepts at a scalar
position in the grammar this serializer emits. -/
def parseOptInt (cs : List Char) : Option (Option Int × List Char) :=
  match cs with
  | [] => none
  | c :: rest =>
    if c = 'n' then
      match rest with
      | 'u' :: 'l' :: 'l' :: rest2 => some (none, rest2)
      | _ => none
    else if c = '-' then
      match rest with
      | d :: _ =>
        if d.isDigit then
          let p := parseNatAux 0 rest
          some (some (-(p.1 : Int)), p.2)
        else none
      | [] => none
    else if c.isDigit then
      let p := parseNatAux 0 (c :: rest)
      some (some ((p.1 : Int)), p.2)
    else none

/-- Parse the body of a JSON string up to (and consuming) the closing
quote; no escape sequences, matching the serializer's output on safe
strings. -/
def parseStrBody : List Char → Option (List Char × List Char)
  | [] => none
  | c :: cs =>
    if c = '"' then some ([], cs)
    else
      match parseStrBody cs with
      | some (s, rest) => some (c :: s, rest)
      | none => none

/-- Consume an expected literal prefix. -/
def dropLit : List Char → List Char → Option (List Char)
  | [], cs => some cs
  | _ :: _, [] => none
  | l :: ls, c :: cs => if c = l then dropLit ls cs else none

theorem isDigit_ne_n {c : Char} (h : c.isDigit = true) : c ≠ 'n' := by
  intro he; subst he; exact absurd h (by decide)

theorem isDigit_ne_minus {c : Char} (h : c.isDigit = true) : c ≠ '-' := by
  intro he; subst he; exact absurd h (by decide)

theorem parseOptInt_dump (v : Option Int) (rest : List Char) (h : headDigit rest = false) :
    parseOptInt (dumpOptInt v ++ rest) = some (v, rest) := by
  match v with
  | none => rfl
  | some (Int.ofNat n) =>
    obtain ⟨d, ds, hds, hd⟩ := printNat_cons n
    have hparse : parseNatAux 0 (printNat n ++ rest) = (n, rest) := parseNat_printNat n rest h
    rw [hds] at hparse
    simp only [List.cons_append] at hparse
    simp only [dumpOptInt, printInt, hds, List.cons_append, parseOptInt,
      if_neg (isDigit_ne_n hd), if_neg (isDigit_ne_minus hd), hd, if_true, hparse]
    simp
  | some (Int.negSucc n) =>
    obtain ⟨d, ds, hds, hd⟩ := printNat_cons (n + 1)
    have hparse : parseNatAux 0 (printNat (n + 1) ++ rest) = (n + 1, rest) :=
      parseNat_printNat (n + 1) rest h
    rw [hds] at hparse
    simp only [List.cons_append] at hparse
    have hneg : (-((n + 1 : Nat) : Int)) = Int.negSucc n := by
      rw [Int.negSucc_eq]; push_cast; ring
    simp only [dumpOptInt, printInt, hds, List.cons_append, parseOptInt,
      if_neg (show ('-' : Char) ≠ 'n' by decide), if_pos (show ('-' : Char) = '-' from rfl),
      hd, if_true, hparse]
    simp
    omega

theorem parseStrBody_append (s : List Char) :
    ∀ rest, '"' ∉ s → parseStrBody (s ++ '"' :: rest) = some (s, rest) := by
  induction s with
  | nil => intro rest _; simp [parseStrBody]
  | cons c cs ih =>
    intro rest hq
    have hc : c ≠ '"' := fun he => hq (by simp [he])
    have hih := ih rest (fun hm => hq (by simp [hm]))
    simp only [List.cons_append, parseStrBody, if_neg hc, List.append_eq, hih]

theorem dropLit_self (ls : List Char) : ∀ cs, dropLit ls (ls ++ cs) = some cs := by
  induction ls with
  | nil => intro cs; rfl
  | cons l ls ih => intro cs; simp [dropLit, ih]

/-! ## The normalized weather record

`WRecord` embeds the `WeatherData` dictionary built in
`WeatherCollector.collect_data` (types.py's `WeatherData` minus the
queue-generated `id`, which is attached separately).  Field `endv` models
the dictionary key `"end"`. -/

/-- The normalized weather record, in the key order in which
`collect_data` builds the dictionary. -/
structure WRecord where
  date : String
  time : String
  wind_speed : Option Int
  wind_direction : Option Int
  wind_min1_max : Option Int
  wind_min1_avg : Option Int
  wind_min1_dir : Option Int
  wind_forever_max : Option Int
  temperature1 : Option Int
  temperature2 : Option Int
  humidity : Option Int
  pressure : Option Int
  avg_pressure : Option Int
  rain : Option Int
  billenes : Option Int
  endv : Option Int
deriving DecidableEq


/-- Literal opening `json.dumps` emits before the `date` value:
`{"date": "`. -/
def openLit : List Char :=
  '\x7b' :: '"' :: 'd' :: 'a' :: 't' :: 'e' :: '"' :: ':' :: ' ' :: '"' :: []

/-- Literal between the `date` value's closing quote and the `time`
value: `, "time": "`. -/
def timeKey : List Char :=
  ',' :: ' ' :: '"' :: 't' :: 'i' :: 'm' :: 'e' :: '"' :: ':' :: ' ' :: '"' :: []

/-- Literal `json.dumps` emits before a numeric field: `, "name": `. -/
def numKey (name : String) : List Char :=
  ',' :: ' ' :: '"' :: (name.data ++ '"' :: ':' :: ' ' :: [])

/-- The numeric fields of the record dictionary, as (key, value) pairs in
the insertion order of `collect_data`. -/
def recFields (r : WRecord) : List (String × Option Int) :=
  ("wind_speed", r.wind_speed) :: ("wind_direction", r.wind_direction) ::
  ("wind_min1_max", r.wind_min1_max) :: ("wind_min1_avg", r.wind_min1_avg) ::
  ("wind_min1_dir", r.wind_min1_dir) :: ("wind_forever_max", r.wind_forever_max) ::
  ("temperature1", r.temperature1) :: ("temperature2", r.temperature2) ::
  ("humidity", r.humidity) :: ("pressure", r.pressure) ::
  ("avg_pressure", r.avg_pressure) :: ("rain", r.rain) ::
  ("billenes", r.billenes) :: ("end", r.endv) :: []

/-- The numeric keys of the record dictionary, in order. -/
def numFieldNames : List String :=
  "wind_speed" :: "wind_direction" :: "wind_min1_max" :: "wind_min1_avg" ::
  "wind_min1_dir" :: "wind_forever_max" :: "temperature1" :: "temperature2" ::
  "humidity" :: "pressure" :: "avg_pressure" :: "rain" :: "billenes" :: "end" :: []

/-- Serialization of the numeric (key, value) pairs. -/
def dumpNumFields : List (String × Option Int) → List Char
  | [] => []
  | (n, v) :: fs => numKey n ++ dumpOptInt v ++ dumpNumFields fs

/-- `json.dumps(data)` on the 16-key record dictionary, with the default
separators `", "` / `": "`, assuming the two strings need no escaping. -/
def dumpsAux (r : WRecord) : List Char :=
  openLit ++ r.date.data ++ '"' :: timeKey ++ r.time.data ++
  '"' :: (dumpNumFields (recFields r) ++ '\x7d' :: [])

/-- `json.dumps` of a record, as the stored `TEXT` payload. -/
def dumps (r : WRecord) : String := ⟨dumpsAux r⟩

/-- Parse one numeric field: its key literal, then its value. -/
def parseNumField (name : String) (cs : List Char) : Option (Option Int × List Char) :=
  match dropLit (numKey name) cs with
  | none => none
  | some cs1 => parseOptInt cs1

/-- Parse a sequence of numeric fields with the given keys, in order. -/
def parseNumFields : List String → List Char → Option (List (Option Int) × List Char)
  | [], cs => some ([], cs)
  | n :: ns, cs =>
    match parseNumField n cs with
    | none => none
    | some p =>
      match parseNumFields ns p.2 with
      | none => none
      | some q => some (p.1 :: q.1, q.2)

/-- `json.loads` of a queue payload: parses exactly the flat-object form
this pipeline writes, rebuilding the record; `none` models
`json.JSONDecodeError` (the corrupted-record case). -/
def loadsAux (cs0 : List Char) : Option WRecord :=
  match dropLit openLit cs0 with
  | none => none
  | some cs1 =>
    match parseStrBody cs1 with
    | none => none
    | some pDate =>
      match dropLit timeKey pDate.2 with
      | none => none
      | some cs2 =>
        match parseStrBody cs2 with
        | none => none
        | some pTime =>
          match parseNumFields numFieldNames pTime.2 with
          | none => none
          | some q =>
            match dropLit ('\x7d' :: []) q.2 with
            | none => none
            | some rest =>
              if rest.isEmpty then
                match q.1 with
                | ws :: wd :: wmm :: wma :: wmd :: wfm :: t1 :: t2 ::
                  hu :: pr :: ap :: ra :: bi :: ev :: [] =>
                  some ⟨⟨pDate.1⟩, ⟨pTime.1⟩, ws, wd, wmm, wma, wmd, wfm,
                    t1, t2, hu, pr, ap, ra, bi, ev⟩
                | _ => none
              else none

/-- `json.loads` on the stored payload string. -/
def loads (s : String) : Option WRecord := loadsAux s.data

/-- Characters `json.dumps` leaves unescaped: printable ASCII other than
the quote and the backslash. -/
def SafeChar (c : Char) : Prop := c ≠ '"' ∧ c ≠ '\\' ∧ 32 ≤ c.toNat ∧ c.toNat ≤ 126

instance : DecidablePred SafeChar := fun c => by
  unfold SafeChar
  infer_instance

/-- A string `json.dumps` serializes without escape sequences.  ISO date
and time strings are safe. -/
def SafeStr (s : String) : Prop := ∀ c ∈ s.data, SafeChar c

instance (s : String) : Decidable (SafeStr s) :=
  inferInstanceAs (Decidable (∀ c ∈ s.data, SafeChar c))

/-- A valid `WeatherRecord` in the spec's sense: its `date` and `time`
fields are plain (ISO-style) strings needing no JSON escaping. -/
def ValidRecord (r : WRecord) : Prop := SafeStr r.date ∧ SafeStr r.time

instance (r : WRecord) : Decidable (ValidRecord r) :=
  inferInstanceAs (Decidable (SafeStr r.date ∧ SafeStr r.time))

theorem headDigit_dumpNumFields (fs : List (String × Option Int)) (rest : List Char)
    (h : headDigit rest = false) : headDigit (dumpNumFields fs ++ rest) = false := by
  match fs with
  | [] => simpa [dumpNumFields] using h
  | (n, v) :: fs => simp [dumpNumFields, numKey, headDigit]

theorem parseNumFields_dump (fs : List (String × Option Int)) :
    ∀ rest, headDigit rest = false →
      parseNumFields (fs.map Prod.fst) (dumpNumFields fs ++ rest) =
        some (fs.map Prod.snd, rest) := by
  induction fs with
  | nil => intro rest _; simp [dumpNumFields, parseNumFields]
  | cons f fs ih =>
    intro rest hrest
    obtain ⟨n, v⟩ := f
    have htail : headDigit (dumpNumFields fs ++ rest) = false :=
      headDigit_dumpNumFields fs rest hrest
    simp only [dumpNumFields, List.map_cons, parseNumFields, parseNumField,
      List.append_assoc, dropLit_self, parseOptInt_dump _ _ htail, ih rest hrest]

/-- Round-trip law for the local-queue payload: deserializing the
serialized form of a valid record yields the record. -/
theorem loads_dumps (r : WRecord) (h : ValidRecord r) : loads (dumps r) = some r := by
  obtain ⟨hdate, htime⟩ := h
  have hdq : '"' ∉ r.date.data := fun hm => (hdate _ hm).1 rfl
  have htq : '"' ∉ r.time.data := fun hm => (htime _ hm).1 rfl
  have hnames : (recFields r).map Prod.fst = numFieldNames := rfl
  have hclose : headDigit ('\x7d' :: []) = false := rfl
  have hfields : parseNumFields numFieldNames
      (dumpNumFields (recFields r) ++ '\x7d' :: []) =
        some ((recFields r).map Prod.snd, '\x7d' :: []) := by
    rw [← hnames]
    exact parseNumFields_dump (recFields r) ('\x7d' :: []) hclose
  show loadsAux (dumpsAux r) = some r
  rw [loadsAux, dumpsAux]
  simp only [List.append_assoc, List.cons_append, dropLit_self,
    parseStrBody_append _ _ hdq, parseStrBody_append _ _ htq, hfields]
  rfl

/-! ## The durable local queue (`LocalStorageManager`)

A row of the sqlite table `weather_data` is `(id TEXT PRIMARY KEY, data
TEXT, synced INTEGER DEFAULT 0, timestamp TEXT)`.  Generated `uuid4` ids
are modelled by a freshness counter; the position in `entries` models the
`timestamp` insertion order used by `ORDER BY timestamp ASC`.  Each
fallible sqlite operation consults its own outcome oracle (`saveOk`,
`markOk`, `getOk`), indexed by how many operations of that kind have run;
`false` models the operation raising, which each Python method catches at
its own boundary. -/

/-- One row of the local `weather_data` table. -/
structure QueueEntry where
  id : Nat
  blob : String
  synced : Bool
deriving DecidableEq

/-- State of `LocalStorageManager`, plus its sqlite failure oracles and
(ghost) operation counters. -/
structure QState where
  entries : List QueueEntry
  nextId : Nat
  saveOk : Nat → Bool
  markOk : Nat → Bool
  getOk : Nat → Bool
  nSave : Nat
  nMark : Nat
  nGet : Nat

/-- `LocalStorageManager.save_data`: generate a fresh id, serialize, insert
with `synced = 0`; on a storage error, log and return `False` (nothing
inserted — the transaction rolls back). -/
def QState.save_data (q : QState) (data : WRecord) : Bool × QState :=
  let ok := q.saveOk q.nSave
  let q := { q with nSave := q.nSave + 1 }
  if ok then
    (true, { q with
      entries := q.entries ++ [⟨q.nextId, dumps data, false⟩],
      nextId := q.nextId + 1 })
  else (false, q)

/-- `LocalStorageManager.mark_as_synced`: `UPDATE weather_data SET synced
= 1 WHERE id = ?`; an update matching zero rows still succeeds.  On a
storage error, log and return `False`. -/
def QState.mark_as_synced (q : QState) (data_id : Nat) : Bool × QState :=
  let ok := q.markOk q.nMark
  let q := { q with nMark := q.nMark + 1 }
  if ok then
    (true, { q with
      entries := q.entries.map fun e => if e.id = data_id then { e with synced := true } else e })
  else (false, q)

/-- `LocalStorageManager._mark_corrupted_record`: the same `UPDATE`, with
the result discarded (its own try/except swallows errors). -/
def QState.markCorrupted (q : QState) (data_id : Nat) : QState :=
  (q.mark_as_synced data_id).2

/-- The row loop inside `get_pending_data`: deserialize each selected row,
attach its id, and mark rows whose payload fails to parse as corrupted. -/
def processRows : List QueueEntry → QState → List (Nat × WRecord) × QState
  | [], q => ([], q)
  | e :: rest, q =>
    match loads e.blob with
    | some data =>
      let p := processRows rest q
      ((e.id, data) :: p.1, p.2)
    | none => processRows rest (q.markCorrupted e.id)

/-- `LocalStorageManager.get_pending_data`: `SELECT id, data FROM
weather_data WHERE synced = 0 ORDER BY timestamp ASC LIMIT ?`, then the
row loop; any storage error yields `[]`. -/
def QState.get_pending_data (q : QState) (limit : Nat := 100) : List (Nat × WRecord) × QState :=
  let ok := q.getOk q.nGet
  let q := { q with nGet := q.nGet + 1 }
  if ok then
    processRows ((q.entries.filter fun e => !e.synced).take limit) q
  else ([], q)

/-! ## The primary store client (`DatabaseManager`)

`is_connected` runs a liveness probe whose outcome is the `conn` oracle;
`save_data` re-verifies `is_connected` and then attempts the parameterized
insert, whose outcome is the `ins` oracle.  A failed insert commits
nothing (the transaction rolls back), so `rows` — the table contents —
grows exactly on successful saves.  Each row records the inserted record
together with a ghost tag naming the queue entry it was synced from
(`none` for direct saves); the actual table columns are just the record
fields.  `nSaveCalls` is a ghost count of `save_data` invocations. -/

/-- State of `DatabaseManager` and the PostgreSQL table it writes. -/
structure DbState where
  conn : Nat → Bool
  ins : Nat → Bool
  nConn : Nat
  nIns : Nat
  nSaveCalls : Nat
  rows : List (Option Nat × WRecord)

/-- `DatabaseManager.is_connected`: one liveness probe. -/
def DbState.is_connected (db : DbState) : Bool × DbState :=
  (db.conn db.nConn, { db with nConn := db.nConn + 1 })

/-- `DatabaseManager.save_data`: check `is_connected` first, then execute
the insert and commit; returns `False` (no row added) on probe failure or
insert error.  `oid` is the ghost origin tag. -/
def DbState.save_data (db : DbState) (oid : Option Nat) (data : WRecord) : Bool × DbState :=
  let db := { db with nSaveCalls := db.nSaveCalls + 1 }
  let p := db.is_connected
  let db := p.2
  if p.1 then
    let res := db.ins db.nIns
    let db := { db with nIns := db.nIns + 1 }
    if res then (true, { db with rows := db.rows ++ [(oid, data)] })
    else (false, db)
  else (false, db)

/-- Combined system state: primary store and local queue. -/
structure SysState where
  db : DbState
  q : QState

/-! ## The collector (`WeatherCollector`) -/

/-- Decoded `wind.json` payload. -/
structure WindPayload where
  speed : Option Int
  dir : Option Int
  min1max : Option Int
  min1avgspeed : Option Int
  min1dir : Option Int
  forevermax : Option Int
deriving DecidableEq

/-- Decoded `sensors.json` payload; `endv` models the key `"end"`. -/
structure SensorsPayload where
  hom : Option Int
  hom2 : Option Int
  rh : Option Int
  p : Option Int
  ap : Option Int
  csap : Option Int
  billenes : Option Int
  endv : Option Int
deriving DecidableEq

/-- The all-`None` wind dictionary substituted when the wind fetch fails. -/
def emptyWind : WindPayload := ⟨none, none, none, none, none, none⟩

/-- The all-`None` sensors dictionary substituted when the sensor fetch
fails. -/
def emptySensors : SensorsPayload := ⟨none, none, none, none, none, none, none, none⟩

/-- The pure field mapping in `collect_data` building the `data`
dictionary from the two payloads and the cycle timestamp. -/
def mapRecord (date time : String) (w : WindPayload) (s : SensorsPayload) : WRecord :=
  ⟨date, time, w.speed, w.dir, w.min1max, w.min1avgspeed, w.min1dir, w.forevermax,
    s.hom, s.hom2, s.rh, s.p, s.ap, s.csap, s.billenes, s.endv⟩

/-- The per-entry loop of `sync_pending_data`: attempt the primary insert
for each pending entry in order; on success mark it synced (result
ignored) and count it; on failure continue with the next entry.  Returns
the final state and the success counter. -/
def syncLoop : List (Nat × WRecord) → SysState → Nat → SysState × Nat
  | [], st, cnt => (st, cnt)
  | item :: rest, st, cnt =>
    let p := st.db.save_data (some item.1) item.2
    let st := { st with db := p.2 }
    if p.1 then
      let m := st.q.mark_as_synced item.1
      syncLoop rest { st with q := m.2 } (cnt + 1)
    else
      syncLoop rest st cnt

/-- `WeatherCollector.sync_pending_data`.  The second component is the
final log line's numbers: `some (X, Y)` when it logs "Successfully synced
X/Y records", `none` when it returned early (not connected / no pending
data). -/
def sync_pending_data (st : SysState) : SysState × Option (Nat × Nat) :=
  let c := st.db.is_connected
  let st := { st with db := c.2 }
  if !c.1 then (st, none)
  else
    let g := st.q.get_pending_data
    let st := { st with q := g.2 }
    if g.1.isEmpty then (st, none)
    else
      let r := syncLoop g.1 st 0
      (r.1, some (r.2, g.1.length))

/-- `WeatherCollector.collect_data`, from the point where the two fetch
results are in hand (`none` models a fetch that returned absent): count
missing sources, abort if both are missing, substitute all-`None`
payloads, map, persist (primary first when connected, local fallback),
then invoke `sync_pending_data`. -/
def collect_data (wind : Option WindPayload) (sensors : Option SensorsPayload)
    (date time : String) (st : SysState) : SysState :=
  let missing := (if wind.isNone then 1 else 0) + (if sensors.isNone then 1 else 0)
  if missing ≥ 2 then st
  else
    let data := mapRecord date time (wind.getD emptyWind) (sensors.getD emptySensors)
    let c := st.db.is_connected
    let st := { st with db := c.2 }
    let st :=
      if c.1 then
        let p := st.db.save_data none data
        let st := { st with db := p.2 }
        if p.1 then st
        else { st with q := (st.q.save_data data).2 }
      else { st with q := (st.q.save_data data).2 }
    (sync_pending_data st).1

/-- One scheduler-driven event: a full collection cycle (with its trailing
sync pass) or a bare sync pass. -/
inductive CycleInput where
  | cycle (wind : Option WindPayload) (sensors : Option SensorsPayload) (date time : String)
  | syncOnly

/-- Run a sequence of collection cycles and sync passes. -/
def runTrace (inputs : List CycleInput) (st : SysState) : SysState :=
  inputs.foldl (fun st i =>
    match i with
    | .cycle w s d t => collect_data w s d t st
    | .syncOnly => (sync_pending_data st).1) st

/-! ## The remote fetcher (`WeatherCollector._make_request`) -/

/-- Outcome of one HTTP attempt: a decoded payload, a request failure
(network error or non-2xx status), or a 200 response whose body is not
valid JSON. -/
inductive ReqResult (α : Type) where
  | success (payload : α)
  | netError
  | invalidJson
deriving DecidableEq

/-- The retry loop of `_make_request` from attempt index `i` with `rem`
range steps left.  Under `requests>=2.32.3` (pinned in setup.py),
`response.json()` raises `requests.exceptions.JSONDecodeError`, which
subclasses `requests.RequestException`, so the first `except` clause
catches it and both failure kinds take the retry path; the dedicated
`json.JSONDecodeError` clause is unreachable. -/
def makeRequestLoop {α : Type} (attempts : Nat → ReqResult α) : Nat → Nat → Option α × Nat
  | i, 0 => (none, i)
  | i, rem + 1 =>
    match attempts i with
    | .success payload => (some payload, i + 1)
    | .netError =>
      if rem = 0 then (none, i + 1) else makeRequestLoop attempts (i + 1) rem
    | .invalidJson =>
      if rem = 0 then (none, i + 1) else makeRequestLoop attempts (i + 1) rem

/-- `WeatherCollector._make_request` (`max_retries = 3`): returns the
decoded payload or `none`, paired with the ghost number of HTTP attempts
performed. -/
def make_request {α : Type} (attempts : Nat → ReqResult α) : Option α × Nat :=
  makeRequestLoop attempts 0 3

/-! ## Helper lemmas about the queue and store operations -/

/-- Default record used to name the payload of an entry already known to
parse. -/
def defaultRecord : WRecord :=
  ⟨"", "", none, none, none, none, none, none, none, none, none, none, none, none, none,
    none⟩

instance : Inhabited WRecord := ⟨defaultRecord⟩

/-- The `UPDATE ... WHERE id = ?` effect on one row. -/
def markOne (i : Nat) (e : QueueEntry) : QueueEntry :=
  if e.id = i then { e with synced := true } else e

/-- The accumulated effect of marking every id in `s`. -/
def markMany (s : List Nat) (e : QueueEntry) : QueueEntry :=
  if e.id ∈ s then { e with synced := true } else e

/-- Ids of the rows whose payloads fail to deserialize. -/
def badIds (rows : List QueueEntry) : List Nat :=
  (rows.filter fun e => (loads e.blob).isNone).map QueueEntry.id

theorem list_map_id_of {α : Type} (l : List α) (f : α → α) (h : ∀ a ∈ l, f a = a) :
    l.map f = l := by
  induction l with
  | nil => rfl
  | cons a l ih => simp [h a (by simp), ih fun b hb => h b (by simp [hb])]

theorem markMany_nil (es : List QueueEntry) : es.map (markMany []) = es :=
  list_map_id_of es _ fun e _ => by simp [markMany]

theorem markOne_markMany (es : List QueueEntry) (i : Nat) (s : List Nat) :
    (es.map (markOne i)).map (markMany s) = es.map (markMany (i :: s)) := by
  rw [List.map_map]
  refine List.map_congr_left fun e _ => ?_
  simp only [Function.comp_apply, markOne, markMany]
  by_cases h1 : e.id = i
  · simp [h1]
  · simp [h1, markMany]

theorem markOne_id (i : Nat) (e : QueueEntry) : (markOne i e).id = e.id := by
  simp only [markOne]
  split <;> rfl

theorem markMany_id (s : List Nat) (e : QueueEntry) : (markMany s e).id = e.id := by
  simp only [markMany]
  split <;> rfl

theorem markMany_blob (s : List Nat) (e : QueueEntry) : (markMany s e).blob = e.blob := by
  simp only [markMany]
  split <;> rfl

theorem markMany_synced_mono (s : List Nat) (e : QueueEntry) (h : e.synced = true) :
    (markMany s e).synced = true := by
  simp only [markMany]
  split <;> simp [h]

theorem markMany_of_not_mem (s : List Nat) (e : QueueEntry) (h : e.id ∉ s) :
    markMany s e = e := by
  simp [markMany, h]

theorem map_id_markOne (es : List QueueEntry) (i : Nat) :
    (es.map (markOne i)).map QueueEntry.id = es.map QueueEntry.id := by
  rw [List.map_map]
  exact List.map_congr_left fun e _ => markOne_id i e

theorem map_id_markMany (es : List QueueEntry) (s : List Nat) :
    (es.map (markMany s)).map QueueEntry.id = es.map QueueEntry.id := by
  rw [List.map_map]
  exact List.map_congr_left fun e _ => markMany_id s e

/-- `DatabaseManager.save_data` adds the row exactly when it reports
success. -/
theorem db_save_rows (db : DbState) (oid : Option Nat) (r : WRecord) :
    ((db.save_data oid r).2).rows =
      if (db.save_data oid r).1 then db.rows ++ [(oid, r)] else db.rows := by
  simp only [DbState.save_data, DbState.is_connected]
  rcases hc : db.conn db.nConn <;> rcases hi : db.ins db.nIns <;> simp [hc, hi]

/-- `DatabaseManager.save_data` leaves the queue-facing oracle state of
the store untouched apart from counters and rows. -/
theorem db_save_conn (db : DbState) (oid : Option Nat) (r : WRecord) :
    ((db.save_data oid r).2).conn = db.conn ∧ ((db.save_data oid r).2).ins = db.ins := by
  simp only [DbState.save_data, DbState.is_connected]
  rcases hc : db.conn db.nConn <;> rcases hi : db.ins db.nIns <;> simp [hc, hi]

/-- Success branch of `mark_as_synced`, when the `UPDATE` does not fail. -/
theorem mark_as_synced_ok (q : QState) (i : Nat) (h : q.markOk q.nMark = true) :
    q.mark_as_synced i =
      (true, { q with nMark := q.nMark + 1, entries := q.entries.map (markOne i) }) := by
  simp only [QState.mark_as_synced, h, if_true]
  rfl

/-- The records returned by the row loop: the parsed payloads of the
parseable rows, each with its id, in order. -/
theorem processRows_fst (rows : List QueueEntry) :
    ∀ q, (processRows rows q).1 =
      (rows.filter fun e => (loads e.blob).isSome).map
        fun e => (e.id, (loads e.blob).getD defaultRecord) := by
  induction rows with
  | nil => intro q; rfl
  | cons e rest ih =>
    intro q
    rcases hb : loads e.blob with _ | r
    · simp [processRows, hb, List.filter_cons, ih]
    · simp [processRows, hb, List.filter_cons, ih]

/-- The state effect of the row loop when marking always succeeds: the
corrupted rows' ids are marked synced. -/
theorem processRows_snd (rows : List QueueEntry) :
    ∀ q, (∀ n, q.markOk n = true) →
      (processRows rows q).2 =
        { q with entries := q.entries.map (markMany (badIds rows)),
                 nMark := q.nMark + (badIds rows).length } := by
  induction rows with
  | nil =>
    intro q _
    simp only [processRows, badIds, List.filter_nil, List.map_nil, markMany_nil,
      List.length_nil, Nat.add_zero]
  | cons e rest ih =>
    intro q hM
    rcases hb : loads e.blob with _ | r
    · have hcor : q.markCorrupted e.id =
          { q with nMark := q.nMark + 1, entries := q.entries.map (markOne e.id) } := by
        simp only [QState.markCorrupted, mark_as_synced_ok q e.id (hM q.nMark)]
      have hbad : badIds (e :: rest) = e.id :: badIds rest := by
        simp [badIds, List.filter_cons, hb]
      simp only [processRows, hb]
      rw [hcor, ih { q with nMark := q.nMark + 1, entries := q.entries.map (markOne e.id) }
        (fun n => hM n), hbad, ← markOne_markMany]
      simp only [List.length_cons, QState.mk.injEq, true_and, and_true]
      omega
    · have hbad : badIds (e :: rest) = badIds rest := by
        simp [badIds, List.filter_cons, hb]
      simp only [processRows, hb]
      rw [ih q hM, hbad]

/-- `DatabaseManager.save_data` under a passing connectivity probe: the
result is the insert oracle's verdict, counters advance, and the row is
appended exactly on success. -/
theorem db_save_char (db : DbState) (oid : Option Nat) (r : WRecord)
    (hc : db.conn db.nConn = true) :
    db.save_data oid r = (db.ins db.nIns,
      { db with nSaveCalls := db.nSaveCalls + 1,
                nConn := db.nConn + 1,
                nIns := db.nIns + 1,
                rows := if db.ins db.nIns then db.rows ++ [(oid, r)] else db.rows }) := by
  simp only [DbState.save_data, DbState.is_connected, hc, if_true]
  rcases hi : db.ins db.nIns <;> simp [hi]

/-- The sync loop when the store stays connected, inserts succeed for
exactly the first `K` attempts, and marking always succeeds: exactly the
first `K` items are marked and inserted, every item is attempted, and the
success counter grows by `K`. -/
theorem syncLoop_firstK (items : List (Nat × WRecord)) :
    ∀ (st : SysState) (cnt K : Nat), K ≤ items.length →
      (∀ n, st.db.conn n = true) →
      (∀ j, st.db.ins (st.db.nIns + j) = decide (j < K)) →
      (∀ n, st.q.markOk n = true) →
      (syncLoop items st cnt).2 = cnt + K ∧
      (syncLoop items st cnt).1.q.entries =
        st.q.entries.map (markMany ((items.take K).map Prod.fst)) ∧
      (syncLoop items st cnt).1.db.rows =
        st.db.rows ++ (items.take K).map (fun it => (some it.1, it.2)) ∧
      (syncLoop items st cnt).1.db.nSaveCalls = st.db.nSaveCalls + items.length ∧
      (syncLoop items st cnt).1.db.nIns = st.db.nIns + items.length := by
  induction items with
  | nil =>
    intro st cnt K hK _ _ _
    have hK0 : K = 0 := by simpa using hK
    subst hK0
    simp [syncLoop, markMany_nil]
  | cons it rest ih =>
    intro st cnt K hK hconn hins hM
    have hc : st.db.conn st.db.nConn = true := hconn _
    have hsave := db_save_char st.db (some it.1) it.2 hc
    rcases K with _ | K
    · have h0 : st.db.ins st.db.nIns = false := by
        have h := hins 0
        simpa using h
      have hins2 : ∀ j, st.db.ins (st.db.nIns + 1 + j) = decide (j < 0) := by
        intro j
        rw [show st.db.nIns + 1 + j = st.db.nIns + (j + 1) from by omega, hins (j + 1),
          decide_eq_decide]
        omega
      have hstep : syncLoop (it :: rest) st cnt =
          syncLoop rest { st with
            db := { st.db with nSaveCalls := st.db.nSaveCalls + 1,
                               nConn := st.db.nConn + 1,
                               nIns := st.db.nIns + 1 } } cnt := by
        simp only [syncLoop, hsave, h0, Bool.false_eq_true, if_false]
      obtain ⟨ih1, ih2, ih3, ih4, ih5⟩ :=
        ih { st with
              db := { st.db with nSaveCalls := st.db.nSaveCalls + 1,
                                 nConn := st.db.nConn + 1,
                                 nIns := st.db.nIns + 1 } }
          cnt 0 (by omega) (fun n => hconn n) hins2 (fun n => hM n)
      rw [hstep]
      refine ⟨by rw [ih1], ?_, ?_, ?_, ?_⟩
      · rw [ih2]
        simp [markMany_nil]
      · rw [ih3]
        simp
      · rw [ih4]
        show st.db.nSaveCalls + 1 + rest.length = st.db.nSaveCalls + (it :: rest).length
        simp only [List.length_cons]
        omega
      · rw [ih5]
        show st.db.nIns + 1 + rest.length = st.db.nIns + (it :: rest).length
        simp only [List.length_cons]
        omega
    · have h0 : st.db.ins st.db.nIns = true := by
        have h := hins 0
        simpa using h
      have hins2 : ∀ j, st.db.ins (st.db.nIns + 1 + j) = decide (j < K) := by
        intro j
        rw [show st.db.nIns + 1 + j = st.db.nIns + (j + 1) from by omega, hins (j + 1),
          decide_eq_decide]
        omega
      have hmark := mark_as_synced_ok st.q it.1 (hM _)
      have hstep : syncLoop (it :: rest) st cnt =
          syncLoop rest { st with
            db := { st.db with nSaveCalls := st.db.nSaveCalls + 1,
                               nConn := st.db.nConn + 1,
                               nIns := st.db.nIns + 1,
                               rows := st.db.rows ++ [(some it.1, it.2)] },
            q := { st.q with nMark := st.q.nMark + 1,
                             entries := st.q.entries.map (markOne it.1) } } (cnt + 1) := by
        simp only [syncLoop, hsave, h0, if_true, hmark]
      obtain ⟨ih1, ih2, ih3, ih4, ih5⟩ :=
        ih { st with
              db := { st.db with nSaveCalls := st.db.nSaveCalls + 1,
                                 nConn := st.db.nConn + 1,
                                 nIns := st.db.nIns + 1,
                                 rows := st.db.rows ++ [(some it.1, it.2)] },
              q := { st.q with nMark := st.q.nMark + 1,
                               entries := st.q.entries.map (markOne it.1) } }
          (cnt + 1) K (by simp only [List.length_cons] at hK; omega)
          (fun n => hconn n) hins2 (fun n => hM n)
      rw [hstep]
      refine ⟨by rw [ih1]; omega, ?_, ?_, ?_, ?_⟩
      · rw [ih2]
        show (st.q.entries.map (markOne it.1)).map (markMany ((rest.take K).map Prod.fst)) =
          st.q.entries.map (markMany (((it :: rest).take (K + 1)).map Prod.fst))
        rw [markOne_markMany]
        simp [List.take_succ_cons]
      · rw [ih3]
        show (st.db.rows ++ [(some it.1, it.2)]) ++
            (rest.take K).map (fun x => (some x.1, x.2)) =
          st.db.rows ++ ((it :: rest).take (K + 1)).map (fun x => (some x.1, x.2))
        simp [List.take_succ_cons]
      · rw [ih4]
        show st.db.nSaveCalls + 1 + rest.length = st.db.nSaveCalls + (it :: rest).length
        simp only [List.length_cons]
        omega
      · rw [ih5]
        show st.db.nIns + 1 + rest.length = st.db.nIns + (it :: rest).length
        simp only [List.length_cons]
        omega

/-- `get_pending_data` when the query succeeds, marking always succeeds,
and every selected payload parses: it returns the first `limit` pending
rows (oldest first) with their ids, and only the query counter moves. -/
theorem get_pending_all (q : QState) (limit : Nat) (hG : q.getOk q.nGet = true)
    (hM : ∀ n, q.markOk n = true)
    (hall : ∀ e ∈ (q.entries.filter fun e => !e.synced).take limit,
      (loads e.blob).isSome = true) :
    q.get_pending_data limit =
      (((q.entries.filter fun e => !e.synced).take limit).map
        (fun e => (e.id, (loads e.blob).getD defaultRecord)),
       { q with nGet := q.nGet + 1 }) := by
  have hbad : badIds ((q.entries.filter fun e => !e.synced).take limit) = [] := by
    have : ((q.entries.filter fun e => !e.synced).take limit).filter
        (fun e => (loads e.blob).isNone) = [] := by
      rw [List.filter_eq_nil_iff]
      intro e he
      simp [Option.isNone_iff_eq_none]
      exact Option.isSome_iff_exists.mp (hall e he) |>.elim fun r hr => by simp [hr]
    simp [badIds, this]
  have hfil : ((q.entries.filter fun e => !e.synced).take limit).filter
      (fun e => (loads e.blob).isSome) = (q.entries.filter fun e => !e.synced).take limit :=
    List.filter_eq_self.mpr (fun e he => hall e he)
  simp only [QState.get_pending_data, hG, if_true]
  refine Prod.ext ?_ ?_
  · rw [processRows_fst, hfil]
  · rw [processRows_snd ((q.entries.filter fun e => !e.synced).take limit)
      { q with nGet := q.nGet + 1 } (fun n => hM n), hbad]
    simp [markMany_nil]

/-- C2: a sync pass over a batch of `N` pending entries, where the primary
accepts exactly the first `K` inserts and rejects the rest, marks exactly
the first `K` entries synced, leaves the rest pending (the final queue is
the old queue with precisely the first `K` batch ids marked), attempts
every one of the `N` entries (the ghost `save_data` call count grows by
`N`: no abort on failure), and logs "Successfully synced K/N records". -/
theorem C2_sync_marks_first_K (st : SysState) (K : Nat)
    (hconn : ∀ n, st.db.conn n = true)
    (hM : ∀ n, st.q.markOk n = true)
    (hG : st.q.getOk st.q.nGet = true)
    (hins : ∀ j, st.db.ins (st.db.nIns + j) = decide (j < K))
    (hall : ∀ e ∈ (st.q.entries.filter fun e => !e.synced).take 100,
      (loads e.blob).isSome = true)
    (hK : K ≤ ((st.q.entries.filter fun e => !e.synced).take 100).length)
    (hN : ((st.q.entries.filter fun e => !e.synced).take 100).length ≠ 0) :
    (sync_pending_data st).2 =
      some (K, ((st.q.entries.filter fun e => !e.synced).take 100).length) ∧
    (sync_pending_data st).1.q.entries =
      st.q.entries.map (markMany
        ((((st.q.entries.filter fun e => !e.synced).take 100).take K).map QueueEntry.id)) ∧
    (sync_pending_data st).1.db.rows =
      st.db.rows ++ (((st.q.entries.filter fun e => !e.synced).take 100).take K).map
        (fun e => (some e.id, (loads e.blob).getD defaultRecord)) ∧
    (sync_pending_data st).1.db.nSaveCalls =
      st.db.nSaveCalls + ((st.q.entries.filter fun e => !e.synced).take 100).length := by
  have hconn0 : st.db.conn st.db.nConn = true := hconn _
  have hget := get_pending_all st.q 100 hG hM hall
  set P := (st.q.entries.filter fun e => !e.synced).take 100 with hP
  set items := P.map (fun e => (e.id, (loads e.blob).getD defaultRecord)) with hitems
  have hlen : items.length = P.length := by simp [hitems]
  have hne : items.isEmpty = false := by
    rcases h2 : items with _ | ⟨a, l⟩
    · rw [h2] at hlen
      simp at hlen
      exact absurd hlen.symm hN
    · rfl
  have hstep : sync_pending_data st =
      ((syncLoop items { st with db := { st.db with nConn := st.db.nConn + 1 },
                                 q := { st.q with nGet := st.q.nGet + 1 } } 0).1,
       some ((syncLoop items { st with db := { st.db with nConn := st.db.nConn + 1 },
                                       q := { st.q with nGet := st.q.nGet + 1 } } 0).2,
             items.length)) := by
    simp only [sync_pending_data, DbState.is_connected, hconn0, Bool.not_true,
      Bool.false_eq_true, if_false, hget, hne]
  obtain ⟨h1, h2, h3, h4, h5⟩ :=
    syncLoop_firstK items
      { st with db := { st.db with nConn := st.db.nConn + 1 },
                q := { st.q with nGet := st.q.nGet + 1 } } 0 K
      (by rw [hlen]; exact hK) (fun n => hconn n) (fun j => hins j) (fun n => hM n)
  have hids : (items.take K).map Prod.fst = (P.take K).map QueueEntry.id := by
    rw [hitems, ← List.map_take, List.map_map]
    rfl
  have hrows : (items.take K).map (fun it => (some it.1, it.2)) =
      (P.take K).map (fun e => (some e.id, (loads e.blob).getD defaultRecord)) := by
    rw [hitems, ← List.map_take, List.map_map]
    rfl
  refine ⟨?_, ?_, ?_, ?_⟩
  · rw [hstep]
    simp only [h1, hlen, Nat.zero_add]
  · rw [hstep]
    simp only [h2, hids]
  · rw [hstep]
    simp only [h3, hrows]
  · rw [hstep]
    simp only [h4, hlen]

/-- Record used by several concrete instances: the all-absent payload
record for a given timestamp. -/
def recAt (date time : String) : WRecord := mapRecord date time emptyWind emptySensors

/-- Concrete state for the C2 witness: two pending valid entries; the
primary accepts the first insert and rejects the second. -/
def stC2 : SysState :=
  { db := { conn := fun _ => true, ins := fun n => decide (n < 1), nConn := 0, nIns := 0,
            nSaveCalls := 0, rows := [] },
    q := { entries := [⟨0, dumps (recAt "2024-05-01" "00:00:00"), false⟩,
                       ⟨1, dumps (recAt "2024-05-01" "00:01:00"), false⟩],
           nextId := 2,
           saveOk := fun _ => true, markOk := fun _ => true, getOk := fun _ => true,
           nSave := 0, nMark := 0, nGet := 0 } }

set_option maxRecDepth 40000 in
/-- Witness for C2 at `N = 2`, `K = 1`: the log pair is "1/2", exactly the
first entry is marked synced, and both entries were attempted. -/
theorem C2_sync_marks_first_K_witness :
    (sync_pending_data stC2).2 = some (1, 2) ∧
    (sync_pending_data stC2).1.q.entries =
      [⟨0, dumps (recAt "2024-05-01" "00:00:00"), true⟩,
       ⟨1, dumps (recAt "2024-05-01" "00:01:00"), false⟩] ∧
    (sync_pending_data stC2).1.db.nSaveCalls = 2 := by
  obtain ⟨h1, h2, h3, h4⟩ := C2_sync_marks_first_K stC2 1 (fun _ => rfl) (fun _ => rfl) rfl
    (fun j => by simp [stC2]) (by decide) (by decide) (by decide)
  exact ⟨h1.trans (by decide), h2.trans (by decide), h4.trans (by decide)⟩

/-! ## No-duplication invariant (for the sync/mark protocol)

A primary-store row's ghost origin tag names the queue entry it was synced
from.  `GoodState` ties the two stores together: queue ids are unique and
below the freshness counter, every queue-sourced row's entry is marked
synced, and no queue entry has been inserted twice. -/

/-- A queue-sourced row's entry is marked synced (vacuous for rows saved
directly by a collection cycle). -/
def SourceSyncedRow (es : List QueueEntry) : Option Nat × WRecord → Prop
  | (none, _) => True
  | (some i, _) => ∃ e ∈ es, e.id = i ∧ e.synced = true

/-- The cross-store invariant, over the queue's entries and freshness
counter and the primary table's rows: queue ids are unique and below the
freshness counter, every queue-sourced row's entry is marked synced, and
the queue-sourced rows have pairwise distinct origin entries (no entry
was ever inserted twice). -/
def GoodQ (es : List QueueEntry) (nid : Nat) (rows : List (Option Nat × WRecord)) : Prop :=
  (es.map QueueEntry.id).Nodup ∧
  (∀ e ∈ es, e.id < nid) ∧
  (∀ p ∈ rows, SourceSyncedRow es p) ∧
  (rows.filterMap Prod.fst).Nodup

/-- The cross-store invariant maintained by the pipeline when
`mark_as_synced` never fails. -/
def GoodState (st : SysState) : Prop :=
  GoodQ st.q.entries st.q.nextId st.db.rows

theorem markOne_eq_markMany (i : Nat) : markOne i = markMany (i :: []) := by
  funext e
  simp [markOne, markMany]

theorem sourceSynced_mono (es : List QueueEntry) (s : List Nat) (p : Option Nat × WRecord)
    (h : SourceSyncedRow es p) : SourceSyncedRow (es.map (markMany s)) p := by
  rcases p with ⟨_ | i, r⟩
  · trivial
  · obtain ⟨e, he, hid, hsy⟩ := h
    exact ⟨markMany s e, List.mem_map_of_mem _ he, by rw [markMany_id, hid],
      markMany_synced_mono _ _ hsy⟩

theorem sourceSynced_extend (es new : List QueueEntry) (p : Option Nat × WRecord)
    (h : SourceSyncedRow es p) : SourceSyncedRow (es ++ new) p := by
  rcases p with ⟨_ | i, r⟩
  · trivial
  · obtain ⟨e, he, hid, hsy⟩ := h
    exact ⟨e, List.mem_append_left _ he, hid, hsy⟩

theorem q_save_markOk (q : QState) (r : WRecord) :
    ((q.save_data r).2).markOk = q.markOk := by
  simp only [QState.save_data]
  split <;> rfl

theorem q_mark_markOk (q : QState) (i : Nat) :
    ((q.mark_as_synced i).2).markOk = q.markOk := by
  simp only [QState.mark_as_synced]
  split <;> rfl

theorem processRows_markOk (rows : List QueueEntry) :
    ∀ q, ((processRows rows q).2).markOk = q.markOk := by
  induction rows with
  | nil => intro q; rfl
  | cons e rest ih =>
    intro q
    rcases hb : loads e.blob with _ | r
    · simp only [processRows, hb]
      rw [ih]
      exact q_mark_markOk q e.id
    · simp only [processRows, hb]
      exact ih q

theorem q_get_markOk (q : QState) (limit : Nat) :
    ((q.get_pending_data limit).2).markOk = q.markOk := by
  simp only [QState.get_pending_data]
  split
  · rw [processRows_markOk]
  · rfl

theorem syncLoop_markOk (items : List (Nat × WRecord)) :
    ∀ st cnt, ((syncLoop items st cnt).1).q.markOk = st.q.markOk := by
  induction items with
  | nil => intro st cnt; rfl
  | cons it rest ih =>
    intro st cnt
    simp only [syncLoop]
    split
    · rw [ih]
      exact q_mark_markOk _ it.1
    · rw [ih]

theorem sync_markOk (st : SysState) :
    ((sync_pending_data st).1).q.markOk = st.q.markOk := by
  simp only [sync_pending_data]
  split
  · rfl
  · split
    · rw [q_get_markOk]
    · rw [syncLoop_markOk, q_get_markOk]

theorem collect_markOk (w : Option WindPayload) (s : Option SensorsPayload)
    (d t : String) (st : SysState) :
    ((collect_data w s d t st).q).markOk = st.q.markOk := by
  simp only [collect_data]
  by_cases hm :
    ((if w.isNone = true then 1 else 0) + (if s.isNone = true then 1 else 0) : Nat) ≥ 2
  · rw [if_pos hm]
  · rw [if_neg hm, sync_markOk]
    split
    · split
      · rfl
      · exact q_save_markOk _ _
    · exact q_save_markOk _ _

/-- Appending a fresh entry (a local-queue `save_data`) preserves the
invariant. -/
theorem goodQ_q_save (es : List QueueEntry) (nid : Nat)
    (rows : List (Option Nat × WRecord)) (blob : String)
    (h : GoodQ es nid rows) : GoodQ (es ++ [⟨nid, blob, false⟩]) (nid + 1) rows := by
  obtain ⟨h1, h2, h3, h4⟩ := h
  refine ⟨?_, ?_, ?_, h4⟩
  · simp only [List.map_append, List.map_cons, List.map_nil]
    rw [List.nodup_append]
    refine ⟨h1, List.nodup_singleton _, ?_⟩
    intro a ha hb
    simp only [List.mem_singleton] at hb
    subst hb
    obtain ⟨e, he, hid⟩ := List.mem_map.mp ha
    have := h2 e he
    omega
  · intro e he
    rcases List.mem_append.mp he with hin | hin
    · have := h2 e hin
      omega
    · simp only [List.mem_singleton] at hin
      subst hin
      simp
  · intro p hp
    exact sourceSynced_extend _ _ _ (h3 p hp)

/-- Marking any set of ids synced preserves the invariant. -/
theorem goodQ_mark (es : List QueueEntry) (nid : Nat)
    (rows : List (Option Nat × WRecord)) (s : List Nat)
    (h : GoodQ es nid rows) : GoodQ (es.map (markMany s)) nid rows := by
  obtain ⟨h1, h2, h3, h4⟩ := h
  refine ⟨?_, ?_, ?_, h4⟩
  · rw [map_id_markMany]
    exact h1
  · intro e' he'
    obtain ⟨e, he, rfl⟩ := List.mem_map.mp he'
    rw [markMany_id]
    exact h2 e he
  · intro p hp
    exact sourceSynced_mono _ _ _ (h3 p hp)

/-- Appending a directly-saved row (no queue origin) preserves the
invariant. -/
theorem goodQ_rows_none (es : List QueueEntry) (nid : Nat)
    (rows : List (Option Nat × WRecord)) (r : WRecord)
    (h : GoodQ es nid rows) : GoodQ es nid (rows ++ [(none, r)]) := by
  obtain ⟨h1, h2, h3, h4⟩ := h
  refine ⟨h1, h2, ?_, ?_⟩
  · intro p hp
    rcases List.mem_append.mp hp with hin | hin
    · exact h3 p hin
    · simp only [List.mem_singleton] at hin
      subst hin
      trivial
  · simpa using h4

/-- The protocol step of a successful sync of one pending entry — insert
its row, then mark it synced — preserves the invariant; in particular the
entry cannot already have a row, so no duplicate is created. -/
theorem goodQ_sync_step (es : List QueueEntry) (nid : Nat)
    (rows : List (Option Nat × WRecord)) (i : Nat) (r : WRecord)
    (h : GoodQ es nid rows) (hp : ∃ e ∈ es, e.id = i ∧ e.synced = false) :
    GoodQ (es.map (markOne i)) nid (rows ++ [(some i, r)]) := by
  obtain ⟨h1, h2, h3, h4⟩ := h
  obtain ⟨e0, he0, hid0, hsy0⟩ := hp
  rw [markOne_eq_markMany]
  refine ⟨?_, ?_, ?_, ?_⟩
  · rw [map_id_markMany]
    exact h1
  · intro e' he'
    obtain ⟨e, he, rfl⟩ := List.mem_map.mp he'
    rw [markMany_id]
    exact h2 e he
  · intro p hp2
    rcases List.mem_append.mp hp2 with hin | hin
    · exact sourceSynced_mono _ _ _ (h3 p hin)
    · simp only [List.mem_singleton] at hin
      subst hin
      refine ⟨markMany (i :: []) e0, List.mem_map_of_mem _ he0,
        by rw [markMany_id]; exact hid0, ?_⟩
      simp [markMany, hid0]
  · rw [List.filterMap_append]
    have hsing : ([((some i : Option Nat), r)].filterMap Prod.fst) = i :: [] := rfl
    rw [hsing, List.nodup_append]
    refine ⟨h4, List.nodup_singleton _, ?_⟩
    intro a ha hb
    simp only [List.mem_singleton] at hb
    subst hb
    obtain ⟨p, hpm, hfst⟩ := List.mem_filterMap.mp ha
    rcases p with ⟨pf, pr⟩
    simp only at hfst
    subst hfst
    obtain ⟨e', he', hid', hsy'⟩ := h3 _ hpm
    have heq : e0 = e' :=
      List.inj_on_of_nodup_map h1 he0 he' (by rw [hid0, hid'])
    rw [← heq] at hsy'
    rw [hsy0] at hsy'
    exact absurd hsy' (by simp)

/-- Every item returned by the row loop comes from a selected row whose
payload parses to the item's record. -/
theorem processRows_mem (rows : List QueueEntry) (q : QState) (item : Nat × WRecord)
    (h : item ∈ (processRows rows q).1) :
    ∃ e ∈ rows, e.id = item.1 ∧ loads e.blob = some item.2 := by
  rw [processRows_fst] at h
  obtain ⟨e, he, heq⟩ := List.mem_map.mp h
  have hpar : (loads e.blob).isSome = true := by
    simpa using (List.mem_filter.mp he).2
  obtain ⟨r, hr⟩ := Option.isSome_iff_exists.mp hpar
  subst heq
  exact ⟨e, (List.mem_filter.mp he).1, rfl, by simp [hr]⟩

/-- The sync loop preserves the invariant provided marking succeeds, the
processed items have distinct ids, and each item is a pending entry of the
queue — under arbitrary connectivity and insert oracles. -/
theorem syncLoop_good (items : List (Nat × WRecord)) :
    ∀ (st : SysState) (cnt : Nat),
      (∀ n, st.q.markOk n = true) →
      GoodState st →
      (items.map Prod.fst).Nodup →
      (∀ it ∈ items, ∃ e ∈ st.q.entries, e.id = it.1 ∧ e.synced = false) →
      GoodState (syncLoop items st cnt).1 := by
  induction items with
  | nil =>
    intro st cnt _ hG _ _
    exact hG
  | cons it rest ih =>
    intro st cnt hM hG hnd hpend
    simp only [List.map_cons, List.nodup_cons] at hnd
    rcases hs : st.db.save_data (some it.1) it.2 with ⟨ok, db2⟩
    have hrows := db_save_rows st.db (some it.1) it.2
    rw [hs] at hrows
    simp only [syncLoop, hs]
    cases ok with
    | false =>
      simp only [Bool.false_eq_true, if_false]
      simp only at hrows
      refine ih _ cnt (fun n => hM n) ?_ hnd.2 ?_
      · show GoodQ st.q.entries st.q.nextId db2.rows
        rw [hrows]
        exact hG
      · intro it' hit'
        exact hpend it' (List.mem_cons_of_mem _ hit')
    | true =>
      simp only [if_true]
      simp only at hrows
      have hm := mark_as_synced_ok st.q it.1 (hM _)
      simp only [hm]
      refine ih _ (cnt + 1) (fun n => hM n) ?_ hnd.2 ?_
      · show GoodQ (st.q.entries.map (markOne it.1)) st.q.nextId db2.rows
        rw [hrows]
        exact goodQ_sync_step _ _ _ _ _ hG (hpend it (List.mem_cons_self _ _))
      · intro it' hit'
        obtain ⟨e, he, hid, hsy⟩ := hpend it' (List.mem_cons_of_mem _ hit')
        have hne : it'.1 ≠ it.1 := by
          intro hcon
          apply hnd.1
          rw [← hcon]
          exact List.mem_map_of_mem _ hit'
        refine ⟨markOne it.1 e, List.mem_map_of_mem _ he, ?_, ?_⟩
        · rw [markOne_id, hid]
        · have : e.id ≠ it.1 := by rw [hid]; exact hne
          simp [markOne, this, hsy]

/-- `get_pending_data` when the query itself fails: an empty batch and
only the query counter moves. -/
theorem get_pending_fail (q : QState) (limit : Nat) (h : q.getOk q.nGet = false) :
    q.get_pending_data limit = ([], { q with nGet := q.nGet + 1 }) := by
  simp [QState.get_pending_data, h]

theorem rows_ids_nodup (es : List QueueEntry) (limit : Nat)
    (h : (es.map QueueEntry.id).Nodup) :
    (((es.filter fun e => !e.synced).take limit).map QueueEntry.id).Nodup := by
  refine List.Nodup.sublist ?_ h
  exact (((es.filter fun e => !e.synced).take_sublist limit).trans
    (List.filter_sublist es)).map _

theorem processRows_ids_sublist (rows : List QueueEntry) (q : QState) :
    List.Sublist (((processRows rows q).1).map Prod.fst) (rows.map QueueEntry.id) := by
  rw [processRows_fst, List.map_map]
  exact (List.filter_sublist rows).map _

/-- `get_pending_data` on a successful query with reliable marking, in
full generality (corrupted rows marked, results from the parseable
rows). -/
theorem get_pending_char (q : QState) (limit : Nat) (hget : q.getOk q.nGet = true)
    (hM : ∀ n, q.markOk n = true) :
    q.get_pending_data limit =
      ((processRows ((q.entries.filter fun e => !e.synced).take limit)
          { q with nGet := q.nGet + 1 }).1,
       { q with nGet := q.nGet + 1,
                entries := q.entries.map (markMany
                  (badIds ((q.entries.filter fun e => !e.synced).take limit))),
                nMark := q.nMark +
                  (badIds ((q.entries.filter fun e => !e.synced).take limit)).length }) := by
  simp only [QState.get_pending_data, hget, if_true]
  refine Prod.ext ?_ ?_
  · rfl
  · rw [processRows_snd _ { q with nGet := q.nGet + 1 } (fun n => hM n)]

/-- A sync pass preserves the invariant when marking is reliable, under
arbitrary connectivity, insert, and query oracles. -/
theorem sync_good (st : SysState) (hM : ∀ n, st.q.markOk n = true) (hG : GoodState st) :
    GoodState (sync_pending_data st).1 := by
  simp only [sync_pending_data, DbState.is_connected]
  cases hc : st.db.conn st.db.nConn with
  | false =>
    simp only [hc, Bool.not_false, if_true]
    exact hG
  | true =>
    simp only [hc, Bool.not_true, Bool.false_eq_true, if_false]
    cases hget : st.q.getOk st.q.nGet with
    | false =>
      rw [get_pending_fail st.q 100 hget]
      simp only [List.isEmpty_nil, if_true]
      exact hG
    | true =>
      rw [get_pending_char st.q 100 hget hM]
      split
      · show GoodQ (st.q.entries.map (markMany
            (badIds ((st.q.entries.filter fun e => !e.synced).take 100))))
          st.q.nextId st.db.rows
        exact goodQ_mark _ _ _ _ hG
      · refine syncLoop_good _ _ 0 (fun n => hM n) ?_ ?_ ?_
        · show GoodQ (st.q.entries.map (markMany
              (badIds ((st.q.entries.filter fun e => !e.synced).take 100))))
            st.q.nextId st.db.rows
          exact goodQ_mark _ _ _ _ hG
        · exact List.Nodup.sublist (processRows_ids_sublist _ _)
            (rows_ids_nodup _ _ hG.1)
        · intro item hitem
          obtain ⟨e, he, hid, hparse⟩ := processRows_mem _ _ _ hitem
          have hepend := List.mem_filter.mp (List.mem_of_mem_take he)
          have hsy : e.synced = false := by simpa using hepend.2
          have hbad : e.id ∉ badIds ((st.q.entries.filter fun e => !e.synced).take 100) := by
            intro hmem
            obtain ⟨e', he', hid'⟩ := List.mem_map.mp hmem
            have hnods := rows_ids_nodup st.q.entries 100 hG.1
            have heq : e' = e :=
              List.inj_on_of_nodup_map hnods (List.mem_of_mem_filter he') he hid'
            rw [heq] at he'
            have := (List.mem_filter.mp he').2
            rw [hparse] at this
            simp at this
          refine ⟨e, ?_, hid, hsy⟩
          have hmem2 := List.mem_map_of_mem
            (markMany (badIds ((st.q.entries.filter fun e => !e.synced).take 100))) hepend.1
          rwa [markMany_of_not_mem _ _ hbad] at hmem2

/-- A local-queue `save_data` call preserves the invariant whether or not
the insert succeeds. -/
theorem good_after_q_save (q : QState) (r : WRecord)
    (rows : List (Option Nat × WRecord)) (h : GoodQ q.entries q.nextId rows) :
    GoodQ ((q.save_data r).2).entries ((q.save_data r).2).nextId rows := by
  simp only [QState.save_data]
  cases hok : q.saveOk q.nSave with
  | false =>
    simp only [hok, Bool.false_eq_true, if_false]
    exact h
  | true =>
    simp only [hok, if_true]
    exact goodQ_q_save _ _ _ _ h

/-- A collection cycle preserves the invariant when marking is reliable,
under arbitrary fetch results and store oracles. -/
theorem collect_good (w : Option WindPayload) (s : Option SensorsPayload) (d t : String)
    (st : SysState) (hM : ∀ n, st.q.markOk n = true) (hG : GoodState st) :
    GoodState (collect_data w s d t st) := by
  simp only [collect_data]
  by_cases hm :
    ((if w.isNone = true then 1 else 0) + (if s.isNone = true then 1 else 0) : Nat) ≥ 2
  · rw [if_pos hm]
    exact hG
  · rw [if_neg hm]
    simp only [DbState.is_connected]
    cases hc : st.db.conn st.db.nConn with
    | false =>
      simp only [hc, Bool.false_eq_true, if_false]
      apply sync_good
      · intro n
        exact (congrFun (q_save_markOk st.q _) n).trans (hM n)
      · show GoodQ ((st.q.save_data (mapRecord d t (w.getD emptyWind)
            (s.getD emptySensors))).2).entries
          ((st.q.save_data (mapRecord d t (w.getD emptyWind) (s.getD emptySensors))).2).nextId
          st.db.rows
        exact good_after_q_save st.q _ _ hG
    | true =>
      simp only [hc, if_true]
      rcases hp : DbState.save_data { st.db with nConn := st.db.nConn + 1 } none
          (mapRecord d t (w.getD emptyWind) (s.getD emptySensors)) with ⟨ok, db2⟩
      have hrows := db_save_rows { st.db with nConn := st.db.nConn + 1 } none
        (mapRecord d t (w.getD emptyWind) (s.getD emptySensors))
      rw [hp] at hrows
      simp only [hp]
      cases ok with
      | true =>
        simp only at hrows
        simp only [if_true]
        apply sync_good
        · intro n
          exact hM n
        · show GoodQ st.q.entries st.q.nextId db2.rows
          rw [hrows]
          exact goodQ_rows_none _ _ _ _ hG
      | false =>
        simp only at hrows
        simp only [Bool.false_eq_true, if_false]
        apply sync_good
        · intro n
          exact (congrFun (q_save_markOk st.q _) n).trans (hM n)
        · show GoodQ ((st.q.save_data (mapRecord d t (w.getD emptyWind)
              (s.getD emptySensors))).2).entries
            ((st.q.save_data (mapRecord d t (w.getD emptyWind)
              (s.getD emptySensors))).2).nextId
            db2.rows
          rw [hrows]
          exact good_after_q_save st.q _ _ hG

/-- Any sequence of collection cycles and sync passes preserves the
invariant when marking is reliable. -/
theorem runTrace_good (inputs : List CycleInput) :
    ∀ st : SysState, (∀ n, st.q.markOk n = true) → GoodState st →
      GoodState (runTrace inputs st) := by
  induction inputs with
  | nil =>
    intro st _ hG
    exact hG
  | cons i rest ih =>
    intro st hM hG
    cases i with
    | cycle w s d t =>
      show GoodState (runTrace rest (collect_data w s d t st))
      exact ih _ (fun n => (congrFun (collect_markOk w s d t st) n).trans (hM n))
        (collect_good w s d t st hM hG)
    | syncOnly =>
      show GoodState (runTrace rest (sync_pending_data st).1)
      exact ih _ (fun n => (congrFun (sync_markOk st) n).trans (hM n))
        (sync_good st hM hG)

/-- C1 (amended): provided every `mark_as_synced` storage operation
succeeds, the pipeline never inserts a local-queue entry into the primary
store more than once: across any sequence of collection cycles and sync
passes, with arbitrary connectivity, insert, local-save and query
failures, the queue-entry origin tags of the primary store's rows remain
pairwise distinct.  (Without that proviso the claim is false — see the
counterexample: an insert that succeeds while the following
`mark_as_synced` fails leaves the entry pending and a later pass inserts
it again.) -/
theorem C1_no_duplicate_inserts (inputs : List CycleInput) (st : SysState)
    (hM : ∀ n, st.q.markOk n = true) (hG : GoodState st) :
    (((runTrace inputs st).db.rows).filterMap Prod.fst).Nodup :=
  (runTrace_good inputs st hM hG).2.2.2

/-- Fresh initial state for the C1 witness. -/
def stC1 : SysState :=
  { db := { conn := fun _ => true, ins := fun _ => true, nConn := 0, nIns := 0,
            nSaveCalls := 0, rows := [] },
    q := { entries := [], nextId := 0, saveOk := fun _ => true, markOk := fun _ => true,
           getOk := fun _ => true, nSave := 0, nMark := 0, nGet := 0 } }

/-- Witness for C1 (amended) on a concrete two-event trace from the empty
initial state. -/
theorem C1_no_duplicate_inserts_witness :
    (((runTrace [CycleInput.cycle (some emptyWind) (some emptySensors) "2024-05-01" "10:00:00",
        CycleInput.syncOnly] stC1).db.rows).filterMap Prod.fst).Nodup :=
  C1_no_duplicate_inserts _ stC1 (fun _ => rfl)
    ⟨by simp [stC1], by simp [stC1], by simp [stC1], by simp [stC1]⟩

/-- State whose primary store is down for the first cycle and up
afterwards, and whose queue `UPDATE`s (mark-as-synced) always fail. -/
def stC1x : SysState :=
  { db := { conn := fun n => decide (2 ≤ n), ins := fun _ => true, nConn := 0, nIns := 0,
            nSaveCalls := 0, rows := [] },
    q := { entries := [], nextId := 0, saveOk := fun _ => true, markOk := fun _ => false,
           getOk := fun _ => true, nSave := 0, nMark := 0, nGet := 0 } }

set_option maxRecDepth 40000 in
/-- C1 counterexample: on a reachable trace — one cycle that queues the
record because the store is down, then two sync passes in which the
insert succeeds but the following `mark_as_synced` fails — the same queue
entry (id 0, same record) is inserted into the primary store twice, so
the claim as stated (no duplication under arbitrary primary-store
failures, including mark-as-synced failing after a successful insert) is
false. -/
theorem C1_counterexample :
    (runTrace [CycleInput.cycle (some emptyWind) (some emptySensors) "2024-05-01" "10:00:00",
        CycleInput.syncOnly, CycleInput.syncOnly] stC1x).db.rows =
      [(some 0, recAt "2024-05-01" "10:00:00"), (some 0, recAt "2024-05-01" "10:00:00")] ∧
    ¬ ((((runTrace [CycleInput.cycle (some emptyWind) (some emptySensors)
          "2024-05-01" "10:00:00",
        CycleInput.syncOnly, CycleInput.syncOnly] stC1x).db.rows).filterMap Prod.fst).Nodup) :=
  ⟨by decide, by decide⟩

/-- Fresh state whose primary store reports connected but rejects every
insert, with a healthy local queue. -/
def stC3 : SysState :=
  { db := { conn := fun _ => true, ins := fun _ => false, nConn := 0, nIns := 0,
            nSaveCalls := 0, rows := [] },
    q := { entries := [], nextId := 0, saveOk := fun _ => true, markOk := fun _ => true,
           getOk := fun _ => true, nSave := 0, nMark := 0, nGet := 0 } }

set_option maxRecDepth 40000 in
/-- C3 counterexample: in a cycle where the store reports connected and
the insert fails, `DatabaseManager.save_data` is called twice in that
cycle — once by the persist step and once more for the just-queued record
by the trailing sync pass — so "attempted exactly once in that cycle" is
false. -/
theorem C3_counterexample :
    (collect_data (some emptyWind) (some emptySensors) "2024-05-01" "10:00:00"
      stC3).db.nSaveCalls = 2 ∧ (2 : Nat) ≠ 1 :=
  ⟨by decide, by decide⟩

/-- C3 (amended): when the store reports connected and every insert
fails, a cycle starting from an empty healthy queue saves the mapped
record to the local queue exactly once (it is the queue's single pending
entry afterwards), attempts the primary `save_data` exactly once during
the persist step, and the sync pass at the end of the same cycle attempts
it once more for the queued record — two primary save calls in the cycle,
with nothing inserted. -/
theorem C3_connected_insert_fails (w : Option WindPayload) (s : Option SensorsPayload)
    (d t : String) (hmiss : w.isSome = true ∨ s.isSome = true)
    (hvd : SafeStr d) (hvt : SafeStr t) :
    (collect_data w s d t stC3).q.entries =
      [⟨0, dumps (mapRecord d t (w.getD emptyWind) (s.getD emptySensors)), false⟩] ∧
    (collect_data w s d t stC3).db.nSaveCalls = 2 ∧
    (collect_data w s d t stC3).db.rows = [] := by
  have hval : ValidRecord (mapRecord d t (w.getD emptyWind) (s.getD emptySensors)) :=
    ⟨hvd, hvt⟩
  have hld := loads_dumps _ hval
  have hm2 : ¬ (2 ≤ ((if w = none then 1 else 0) + (if s = none then 1 else 0) : Nat)) := by
    rcases hmiss with h | h
    · have hw : ¬ (w = none) := by cases w <;> simp_all
      rw [if_neg hw]
      split <;> omega
    · have hs2 : ¬ (s = none) := by cases s <;> simp_all
      rw [if_neg hs2]
      split <;> omega
  refine ⟨?_, ?_, ?_⟩ <;>
    simp [collect_data, stC3, DbState.is_connected, DbState.save_data,
      QState.save_data, sync_pending_data, QState.get_pending_data, processRows,
      syncLoop, hld, List.filter_cons, hm2]

/-- Witness for C3 (amended) at concrete payloads and timestamp. -/
theorem C3_connected_insert_fails_witness :
    (collect_data (some emptyWind) (some emptySensors) "2024-05-01" "10:00:00"
        stC3).q.entries = [⟨0, dumps (recAt "2024-05-01" "10:00:00"), false⟩] ∧
    (collect_data (some emptyWind) (some emptySensors) "2024-05-01" "10:00:00"
        stC3).db.nSaveCalls = 2 ∧
    (collect_data (some emptyWind) (some emptySensors) "2024-05-01" "10:00:00"
        stC3).db.rows = [] :=
  C3_connected_insert_fails (some emptyWind) (some emptySensors) "2024-05-01" "10:00:00"
    (Or.inl rfl) (by decide) (by decide)

/-- C4: when the primary store reports not connected throughout the
cycle, the collector never calls the primary `save_data` (the ghost call
counter, the insert counter and the table are untouched) and the mapped
record is appended to the local queue as a pending entry; the sync pass
is skipped by its own connectivity probe (the final state shows exactly
two probes and one local save as the whole cycle's effect). -/
theorem C4_not_connected_saves_locally (w : Option WindPayload) (s : Option SensorsPayload)
    (d t : String) (st : SysState)
    (hmiss : w.isSome = true ∨ s.isSome = true)
    (hconn : ∀ n, st.db.conn n = false)
    (hsave : st.q.saveOk st.q.nSave = true) :
    collect_data w s d t st =
      { st with
        db := { st.db with nConn := st.db.nConn + 2 },
        q := { st.q with
               nSave := st.q.nSave + 1,
               nextId := st.q.nextId + 1,
               entries := st.q.entries ++
                 [⟨st.q.nextId,
                   dumps (mapRecord d t (w.getD emptyWind) (s.getD emptySensors)),
                   false⟩] } } := by
  have hm : ¬ (((if w.isNone = true then 1 else 0) +
      (if s.isNone = true then 1 else 0) : Nat) ≥ 2) := by
    rcases hmiss with h | h
    · have hw : w.isNone = false := by cases w <;> simp_all
      simp only [hw, Bool.false_eq_true, if_false]
      split <;> omega
    · have hs2 : s.isNone = false := by cases s <;> simp_all
      simp only [hs2, Bool.false_eq_true, if_false]
      split <;> omega
  simp only [collect_data, if_neg hm, DbState.is_connected, hconn, Bool.false_eq_true,
    if_false, QState.save_data, hsave, if_true, sync_pending_data, Bool.not_false]

/-- Fresh not-connected state for the C4 witness. -/
def stC4 : SysState :=
  { db := { conn := fun _ => false, ins := fun _ => true, nConn := 0, nIns := 0,
            nSaveCalls := 0, rows := [] },
    q := { entries := [], nextId := 0, saveOk := fun _ => true, markOk := fun _ => true,
           getOk := fun _ => true, nSave := 0, nMark := 0, nGet := 0 } }

/-- Witness for C4 at a concrete cycle. -/
theorem C4_not_connected_saves_locally_witness :
    collect_data (some emptyWind) none "2024-05-01" "10:00:00" stC4 =
      { stC4 with
        db := { stC4.db with nConn := 2 },
        q := { stC4.q with
                 nSave := 1,
                 nextId := 1,
                 entries := [⟨0, dumps (recAt "2024-05-01" "10:00:00"), false⟩] } } :=
  C4_not_connected_saves_locally (some emptyWind) none "2024-05-01" "10:00:00" stC4
    (Or.inl rfl) (fun _ => rfl) rfl

/-- C5: when both fetches return absent, the cycle aborts with no effect
at all: no primary probe or insert, no local save, and no sync invocation
— the entire system state, including every ghost operation counter, is
returned unchanged. -/
theorem C5_both_missing_aborts (date time : String) (st : SysState) :
    collect_data none none date time st = st := rfl

/-- C6 (evaluation at the failing input): when the first HTTP attempt
yields a response whose body is not valid JSON and the second attempt
succeeds, `_make_request` performs a second attempt and returns its
payload rather than returning absent after the first attempt.  Under the
pinned `requests>=2.32.3`, `response.json()` raises
`requests.exceptions.JSONDecodeError`, a subclass of
`requests.RequestException`, so the first `except` clause catches it and
retries; the dedicated `json.JSONDecodeError` no-retry clause is
unreachable. -/
theorem C6_bad_json_is_retried :
    make_request (fun n => if n = 0 then ReqResult.invalidJson
      else ReqResult.success emptyWind) = (some emptyWind, 2) := rfl

/-- C7 (amended): a pending entry whose payload fails to deserialize is,
on the very next `get_pending_data` call whose batch window reaches it
(it lies among the first `limit` pending rows), excluded from the
returned sequence and marked synced as a side effect — assuming the query
and the marking `UPDATE` succeed.  (Entries beyond the `LIMIT` window are
not selected and hence not marked — see the counterexample.) -/
theorem C7_corrupted_entry_neutralized (q : QState) (e : QueueEntry) (limit : Nat)
    (hnd : (q.entries.map QueueEntry.id).Nodup)
    (hok : q.getOk q.nGet = true)
    (hM : ∀ n, q.markOk n = true)
    (he : e ∈ (q.entries.filter fun x => !x.synced).take limit)
    (hbadblob : loads e.blob = none) :
    (∀ item ∈ (q.get_pending_data limit).1, item.1 ≠ e.id) ∧
    (∃ e' ∈ ((q.get_pending_data limit).2).entries, e'.id = e.id ∧ e'.synced = true) := by
  rw [get_pending_char q limit hok hM]
  have hrowsnd := rows_ids_nodup q.entries limit hnd
  constructor
  · intro item hitem hideq
    obtain ⟨e2, he2, hid2, hparse2⟩ := processRows_mem _ _ _ hitem
    have heq : e2 = e :=
      List.inj_on_of_nodup_map hrowsnd he2 he (by rw [hid2, hideq])
    rw [heq, hbadblob] at hparse2
    exact absurd hparse2 (by simp)
  · have hmemq : e ∈ q.entries := List.mem_of_mem_filter (List.mem_of_mem_take he)
    have hbadmem : e.id ∈ badIds ((q.entries.filter fun x => !x.synced).take limit) := by
      refine List.mem_map_of_mem _ ?_
      rw [List.mem_filter]
      exact ⟨he, by simp [hbadblob]⟩
    refine ⟨markMany (badIds ((q.entries.filter fun x => !x.synced).take limit)) e,
      List.mem_map_of_mem _ hmemq, markMany_id _ _, ?_⟩
    simp [markMany, hbadmem]

/-- Queue for the C7 witness: a corrupted pending entry followed by a
valid one. -/
def qC7 : QState :=
  { entries := [⟨0, "x", false⟩, ⟨1, dumps (recAt "2024-05-01" "10:00:00"), false⟩],
    nextId := 2, saveOk := fun _ => true, markOk := fun _ => true, getOk := fun _ => true,
    nSave := 0, nMark := 0, nGet := 0 }

set_option maxRecDepth 40000 in
/-- Witness for C7 (amended): the corrupted entry (id 0) is excluded from
the results of the very next call and is marked synced by it. -/
theorem C7_corrupted_entry_neutralized_witness :
    (∀ item ∈ (qC7.get_pending_data 100).1, item.1 ≠ 0) ∧
    (∃ e' ∈ ((qC7.get_pending_data 100).2).entries, e'.id = 0 ∧ e'.synced = true) :=
  C7_corrupted_entry_neutralized qC7 ⟨0, "x", false⟩ 100 (by decide) rfl (fun _ => rfl)
    (by decide) (by decide)

/-- Queue for the C7 counterexample: 100 valid pending entries older than
the corrupted one, which is therefore outside the `LIMIT 100` batch. -/
def qC7x : QState :=
  { entries := List.replicate 100 ⟨5, dumps (recAt "2024-05-01" "10:00:00"), false⟩ ++
      [⟨7, "x", false⟩],
    nextId := 200, saveOk := fun _ => true, markOk := fun _ => true, getOk := fun _ => true,
    nSave := 0, nMark := 0, nGet := 0 }

set_option maxRecDepth 100000 in
/-- C7 counterexample: the queue contains an entry (id 7) whose payload
"x" fails to deserialize, yet the very next `get_pending_data` call
leaves the whole queue — in particular that entry, still pending —
unchanged, because the corrupted entry lies beyond the first 100 pending
rows selected by `LIMIT`; so "marks that entry synced on the very next
call", as stated for every queue state, is false. -/
theorem C7_counterexample :
    loads "x" = none ∧
    (⟨7, "x", false⟩ : QueueEntry) ∈ qC7x.entries ∧
    ((qC7x.get_pending_data 100).2).entries = qC7x.entries :=
  ⟨by decide, by decide, by decide⟩

/-- C8: the serialize/deserialize round-trip used for the local-queue
payload is the identity on valid records. -/
theorem C8_serialize_roundtrip (r : WRecord) (h : ValidRecord r) :
    loads (dumps r) = some r :=
  loads_dumps r h

/-- Concrete record for the C8 witness, exercising positive, negative and
absent numeric fields. -/
def rC8 : WRecord :=
  ⟨"2024-05-01", "12:34:56", some 15, some 180, none, some (-3), none, some 42,
    some 22, none, some 55, none, some 1013, some 0, some 7, some 1⟩

set_option maxRecDepth 40000 in
/-- Witness for C8 at a concrete valid record. -/
theorem C8_serialize_roundtrip_witness :
    ValidRecord rC8 ∧ loads (dumps rC8) = some rC8 :=
  ⟨by decide, C8_serialize_roundtrip rC8 (by decide)⟩

/-- C9: `mark_as_synced` on an id that is not in the queue reports
success (no error) and leaves the queue contents unchanged — an `UPDATE`
matching zero rows is still a successful statement; only the ghost
operation counter moves. -/
theorem C9_mark_missing_id_noop (q : QState) (i : Nat)
    (hok : q.markOk q.nMark = true) (hid : i ∉ q.entries.map QueueEntry.id) :
    q.mark_as_synced i = (true, { q with nMark := q.nMark + 1 }) := by
  rw [mark_as_synced_ok q i hok]
  have hmap : q.entries.map (markOne i) = q.entries :=
    list_map_id_of _ _ fun e he => by
      have hne : e.id ≠ i := fun hc => hid (hc ▸ List.mem_map_of_mem _ he)
      simp [markOne, hne]
  rw [hmap]

/-- Queue for the C9 witness. -/
def qC9 : QState :=
  { entries := [⟨0, "b", false⟩], nextId := 1, saveOk := fun _ => true,
    markOk := fun _ => true, getOk := fun _ => true, nSave := 0, nMark := 0, nGet := 0 }

/-- Witness for C9: marking the absent id 5 succeeds and is a no-op. -/
theorem C9_mark_missing_id_noop_witness :
    qC9.mark_as_synced 5 = (true, { qC9 with nMark := 1 }) :=
  C9_mark_missing_id_noop qC9 5 rfl (by decide)

/-- C10: when the storage access inside `get_pending_data` fails, the
call returns an empty sequence instead of propagating the exception;
callers observe the failure as an empty batch (only the ghost query
counter moves). -/
theorem C10_get_pending_failure_empty (q : QState) (limit : Nat)
    (h : q.getOk q.nGet = false) :
    q.get_pending_data limit = ([], { q with nGet := q.nGet + 1 }) :=
  get_pending_fail q limit h

/-- Queue for the C10 witness: nonempty pending contents, failing
storage. -/
def qC10 : QState :=
  { entries := [⟨0, "b", false⟩], nextId := 1, saveOk := fun _ => true,
    markOk := fun _ => true, getOk := fun _ => false, nSave := 0, nMark := 0, nGet := 0 }

/-- Witness for C10: the failing query yields an empty batch. -/
theorem C10_get_pending_failure_empty_witness :
    qC10.get_pending_data 100 = ([], { qC10 with nGet := 1 }) :=
  C10_get_pending_failure_empty qC10 100 rfl
